import Mathlib

/-!
Verification of the slot-graph dialog engine of the Medical-History-Interviewer
backend (`backend/slot_schema.js`, `backend/dialog_manager.js`).  JavaScript
values stored in `filledSlots` are modelled by `JValue`; JS objects are
modelled as ordered association lists (insertion order preserved, assignment
replaces in place, new keys are appended), matching `Object.entries` /
`Object.keys` enumeration order.  External LLM delegates (router, extraction,
correction parser, clarification text) are passed in as parameters: the engine
only consumes their structured results.
-/

instance {ε α : Type} [DecidableEq ε] [DecidableEq α] : DecidableEq (Except ε α)
  | .ok a, .ok b =>
    match decEq a b with
    | isTrue h => isTrue (by rw [h])
    | isFalse h => isFalse (by intro hc; cases hc; exact h rfl)
  | .ok _, .error _ => isFalse (by intro hc; cases hc)
  | .error _, .ok _ => isFalse (by intro hc; cases hc)
  | .error e, .error f =>
    match decEq e f with
    | isTrue h => isTrue (by rw [h])
    | isFalse h => isFalse (by intro hc; cases hc; exact h rfl)

/-! Character-level implementations of the JS string primitives the engine
uses (`toLowerCase`, `trim`, `replace(/_/g, ...)`, `split`, prefix tests).
They operate on the character lists underlying `String` so that every
definition in this file evaluates inside the kernel. -/

/-- JS `\s` on the characters that can occur here. -/
def jsSpace (c : Char) : Bool :=
  c = ' ' || c = '\t' || c = '\n' || c = '\r' || c = '\x0b' || c = '\x0c'

/-- JS `\w`: ASCII letters, digits, underscore. -/
def isWordChar (c : Char) : Bool := c.isAlpha || c.isDigit || c = '_'

/-- JS `s.toLowerCase()` (ASCII). -/
def jsLower (s : String) : String := ⟨s.data.map Char.toLower⟩

/-- JS `s.trim()`. -/
def jsTrim (s : String) : String :=
  ⟨((s.data.dropWhile jsSpace).reverse.dropWhile jsSpace).reverse⟩

/-- JS `s.replace(/_/g, ' ')`. -/
def underscoresToSpaces (s : String) : String :=
  ⟨s.data.map (fun c => if c = '_' then ' ' else c)⟩

/-- Worker for `split('|')`. -/
def splitBarGo (cur : List Char) : List Char → List (List Char)
  | [] => [cur.reverse]
  | '|' :: rest => cur.reverse :: splitBarGo [] rest
  | c :: rest => splitBarGo (c :: cur) rest

/-- JS `s.split('|')`. -/
def splitBar (s : List Char) : List (List Char) := splitBarGo [] s

/-- JS `s.startsWith(p)`. -/
def startsWithChars (p s : String) : Bool := p.data.isPrefixOf s.data

/-- JS `s.endsWith('?')`. -/
def endsWithQMark (s : String) : Bool := s.data.reverse.head? = some '?'

/-- A JavaScript value as used by the dialog engine: text, boolean, number,
list of text, or `null`/`undefined` (collapsed into `null`). -/
inductive JValue where
  | str (s : String)
  | bool (b : Bool)
  | num (n : Int)
  | list (xs : List String)
  | null
deriving DecidableEq, Repr

/-- JS `String(v)` for the values above (arrays stringify to a `,`-join). -/
def jsToString : JValue → String
  | .str s => s
  | .bool b => if b then "true" else "false"
  | .num n => toString n
  | .list xs => String.intercalate "," xs
  | .null => "null"

/-- JS `String(v ?? '')`: `null`/`undefined` collapse to the empty string. -/
def jsStringOrEmpty : JValue → String
  | .null => ""
  | v => jsToString v

/-- JS truthiness of a `JValue` (`""`, `false`, `0`, `null` are falsy). -/
def jsTruthy : JValue → Bool
  | .str s => s ≠ ""
  | .bool b => b
  | .num n => n ≠ 0
  | .list _ => true
  | .null => false

/-- `obj[k]` on an object modelled as an ordered association list. -/
def getKey : List (String × JValue) → String → Option JValue
  | [], _ => none
  | (k0, v0) :: rest, k => if k0 = k then some v0 else getKey rest k

/-- `obj[k] = v`: replace in place if the key exists, else append (JS
property-assignment order semantics). -/
def setKey : List (String × JValue) → String → JValue → List (String × JValue)
  | [], k, v => [(k, v)]
  | (k0, v0) :: rest, k, v => if k0 = k then (k, v) :: rest else (k0, v0) :: setKey rest k v

/-- One slot definition of `SLOT_SCHEMA.slots` (`backend/slot_schema.js`).
`branches` is an ordered pattern → target mapping; `next_default` is the
`null`-able default successor. -/
structure SlotDef where
  id : String
  question : String
  required : Bool
  branches : List (String × String)
  next_default : Option String
deriving DecidableEq, Repr

/-- The slot schema as an ordered list of definitions (`Object.keys` order);
the first entry is the root slot. Transcribed from `backend/slot_schema.js`. -/
def SLOT_SCHEMA : List SlotDef :=
  [ { id := "full_name", question := "What is your full name?", required := true,
      branches := [], next_default := some "dob" },
    { id := "dob", question := "What is your date of birth?", required := true,
      branches := [], next_default := some "has_partner" },
    { id := "has_partner",
      question := "Do you have a partner who will be part of treatment? (yes/no)",
      required := true, branches := [], next_default := some "chief_complaint" },
    { id := "chief_complaint", question := "What brings you in today?", required := true,
      branches := [(".*fertility.*", "months_ttc"), (".*pregnant.*", "months_ttc"),
                   (".*trying.*", "months_ttc")],
      next_default := none },
    { id := "months_ttc",
      question := "How many months have you been trying to get pregnant?",
      required := false, branches := [], next_default := none } ]

/-- The ids of a schema, in declaration order (`Object.keys(slots)`). -/
def slotIds (slots : List SlotDef) : List String := slots.map (fun s => s.id)

/-- `slots[name]`: the slot definition for an id, if any. -/
def findSlot (slots : List SlotDef) (name : String) : Option SlotDef :=
  slots.find? (fun s => s.id = name)

/-- Result shape of `validateSlotValue`. -/
structure ValidationResult where
  isValid : Bool
  error : Option String
deriving DecidableEq, Repr

/-- `validateSlotValue(slotName, value)` from `backend/slot_schema.js`:
unknown slot → "Invalid slot name"; `null`/`undefined` → "No value provided";
booleans always valid; empty (after trim) strings invalid; everything else,
including empty arrays and numbers, valid. -/
def validateSlotValue (slotName : String) (value : JValue) : ValidationResult :=
  match findSlot SLOT_SCHEMA slotName with
  | none => ⟨false, some "Invalid slot name"⟩
  | some _ =>
    match value with
    | .null => ⟨false, some "No value provided"⟩
    | .bool _ => ⟨true, none⟩
    | .str s => if jsTrim s = "" then ⟨false, some "Empty value provided"⟩ else ⟨true, none⟩
    | .list _ => ⟨true, none⟩
    | .num _ => ⟨true, none⟩

/-- The confidence threshold `0.7` of the merge engine, as a rational in
lowest terms.  It is built with the raw `Rat` constructor so that the
threshold comparison evaluates inside the kernel; `CONF_THRESHOLD_eq` ties it
to `7/10`. -/
def CONF_THRESHOLD : ℚ := Rat.mk' 7 10 (by norm_num) (by norm_num)

/-- The JS number `0.5`, kernel-computable (see `CONF_THRESHOLD`). -/
def conf05 : ℚ := Rat.mk' 1 2 (by norm_num) (by norm_num)

/-- The JS number `0.9`, kernel-computable (see `CONF_THRESHOLD`). -/
def conf09 : ℚ := Rat.mk' 9 10 (by norm_num) (by norm_num)

/-- The JS number `0.95`, kernel-computable (see `CONF_THRESHOLD`). -/
def conf095 : ℚ := Rat.mk' 19 20 (by norm_num) (by norm_num)

/-- One candidate extraction handed to the merge engine by the router
(`{slotName, value, confidence}`); confidences are modelled as rationals. -/
structure Extraction where
  slotName : String
  value : JValue
  confidence : ℚ
deriving DecidableEq, Repr

/-- One rejected extraction (`{slotName, value, confidence, error}`); the
`error` is the validation error, which is `null` when the rejection was due
to the confidence threshold alone. -/
structure FailedExtraction where
  slotName : String
  value : JValue
  confidence : ℚ
  error : Option String
deriving DecidableEq, Repr

/-- Result shape of `processMultipleExtractions`. -/
structure MergeResult where
  updatedSlots : List (String × JValue)
  successfulExtractions : List Extraction
  failedExtractions : List FailedExtraction
deriving DecidableEq, Repr

/-- `processMultipleExtractions(extractions, filledSlots)` from
`backend/dialog_manager.js`: each candidate in order is accepted iff it
validates and has confidence ≥ 0.7; accepted candidates overwrite the slot in
the running map and are appended to the successful list; all others are
appended to the failed list with the validation error. -/
def processMultipleExtractions : List Extraction → List (String × JValue) → MergeResult
  | [], filled => ⟨filled, [], []⟩
  | e :: rest, filled =>
    let validation := validateSlotValue e.slotName e.value
    if validation.isValid && decide (e.confidence ≥ CONF_THRESHOLD) then
      let r := processMultipleExtractions rest (setKey filled e.slotName e.value)
      ⟨r.updatedSlots, e :: r.successfulExtractions, r.failedExtractions⟩
    else
      let r := processMultipleExtractions rest filled
      ⟨r.updatedSlots, r.successfulExtractions,
        ⟨e.slotName, e.value, e.confidence, validation.error⟩ :: r.failedExtractions⟩

/-! ### Branch-pattern matching

Branch keys are compiled as case-insensitive JS regexes and applied with
`regex.test(value)` (match anywhere in the string).  The schema only uses
patterns built from literal characters, `.` and `*`; the matcher below
implements exactly that fragment, and any pattern containing other regex
metacharacters is treated as failing to compile, which triggers the source's
fallback (`pattern.split('|')` literal equality). -/

/-- A regex token: `.` (any char except newline) or a literal character. -/
inductive RTok where
  | dot
  | lit (c : Char)
deriving DecidableEq, Repr

/-- Case-insensitive single-character match (the `'i'` flag). -/
def tokMatches : RTok → Char → Bool
  | .dot, c => c ≠ '\n'
  | .lit l, c => l.toLower = c.toLower

/-- Characters that the mini-engine does not support; a pattern containing
one is treated as not compiling (conservative stand-in for `new RegExp`
throwing). -/
def regexMeta : List Char :=
  ['\\', '+', '?', '(', ')', '[', ']', Char.ofNat 123, Char.ofNat 125, '|', '^', '$']

/-- The token for one pattern character. -/
def mkTok (c : Char) : RTok := if c = '.' then RTok.dot else RTok.lit c

/-- Parse a pattern into tokens, each with a `*`-starred flag. -/
def parseRegex : List Char → Option (List (RTok × Bool))
  | [] => some []
  | '*' :: _ => none
  | c :: '*' :: rest2 =>
    if c ∈ regexMeta then none
    else (parseRegex rest2).map (fun ts => (mkTok c, true) :: ts)
  | c :: rest =>
    if c ∈ regexMeta then none
    else (parseRegex rest).map (fun ts => (mkTok c, false) :: ts)

/-- Fueled matcher: does the token list match some leading segment of the
text?  Fuel `tokens + chars + 1` always suffices since every recursive call
shrinks `toks.length + s.length`. -/
def reMatchHeadF : Nat → List (RTok × Bool) → List Char → Bool
  | 0, _, _ => false
  | _ + 1, [], _ => true
  | _ + 1, (_, false) :: _, [] => false
  | fuel + 1, (t, false) :: rest, c :: cs => tokMatches t c && reMatchHeadF fuel rest cs
  | fuel + 1, (t, true) :: rest, s =>
    reMatchHeadF fuel rest s ||
      (match s with
       | [] => false
       | c :: cs => tokMatches t c && reMatchHeadF fuel ((t, true) :: rest) cs)

/-- Does the token list match starting at the head of the text? -/
def reMatchHead (toks : List (RTok × Bool)) (s : List Char) : Bool :=
  reMatchHeadF (toks.length + s.length + 1) toks s

/-- `regex.test(s)`: match starting at any position. -/
def reTestF (toks : List (RTok × Bool)) : List Char → Bool
  | [] => reMatchHead toks []
  | c :: cs => reMatchHead toks (c :: cs) || reTestF toks cs

/-- One branch key tested against the lowercased stringified value: regex
test when the pattern compiles, else the `split('|')`-equality fallback. -/
def branchMatches (pattern value : String) : Bool :=
  match parseRegex pattern.data with
  | some toks => reTestF toks value.data
  | none => ((splitBar pattern.data).map (fun cs => jsLower (jsTrim ⟨cs⟩))).contains value

/-- The branch loop of `getNextUnfilledSlot`: first pattern (in declaration
order) matching the value wins. -/
def findBranch (branches : List (String × String)) (value : String) : Option String :=
  (branches.find? (fun pt => branchMatches pt.1 value)).map (fun pt => pt.2)

/-! ### Graph traversal (`getNextUnfilledSlot`)

The `while` loop of `backend/slot_schema.js` is modelled with an explicit
fuel guarding the loop; `nextUnfilledSlot_terminates` (claim C2) proves the
initial fuel `slots.length + 1` is never exhausted, because every iteration
either returns or adds an unvisited schema id to the visited set.  A `.error`
result models the `TypeError` the JS code throws when a filled slot id has no
schema entry (`cfg.next_default` on `undefined`); fuel exhaustion is the
`none` of the outer `Option`, proven unreachable. -/

/-- The successor computation of one loop iteration: `next = cfg.next_default
|| null`, overridden by the first matching branch when the stringified value
is non-empty (a falsy empty-string value skips the branch loop in the
source). -/
def nextSlotOf (cfg : SlotDef) (value : String) : Option String :=
  let dflt : Option String :=
    match cfg.next_default with
    | some d => if d = "" then none else some d
    | none => none
  if value = "" then dflt
  else
    match findBranch cfg.branches value with
    | some t => some t
    | none => dflt

def walkF (slots : List SlotDef) (filled : List (String × JValue)) :
    Nat → String → List String → Option (Except String (Option String))
  | 0, _, _ => none
  | fuel + 1, current, visited =>
    if current ∈ visited then some (.ok none)
    else
      match getKey filled current with
      | none => some (.ok (some current))
      | some v =>
        match findSlot slots current with
        | none => some (.error "TypeError: slot configuration is undefined")
        | some cfg =>
          match nextSlotOf cfg (jsLower (jsStringOrEmpty v)) with
          | none => some (.ok none)
          | some n => if n = "" then some (.ok none) else walkF slots filled fuel n (current :: visited)

/-- `getNextUnfilledSlot(filledSlots)` generalized over the schema: start at
the first-declared slot (`ROOT_SLOT`); an empty schema makes the loop exit
immediately (`Object.keys(slots)[0]` is `undefined`). -/
def getNextUnfilledSlot (slots : List SlotDef) (filled : List (String × JValue)) :
    Option (Except String (Option String)) :=
  match slots with
  | [] => some (.ok none)
  | s0 :: _ =>
    if s0.id = "" then some (.ok none)
    else walkF slots filled (slots.length + 1) s0.id []

/-- Every branch target and every default successor of the graph is an id of
the graph (the well-formedness the spec calls a slot graph; cycles allowed). -/
def EdgesClosed (slots : List SlotDef) : Prop :=
  ∀ s ∈ slots, (∀ pt ∈ s.branches, pt.2 ∈ slotIds slots) ∧
    (∀ d, s.next_default = some d → d ∈ slotIds slots)

instance (slots : List SlotDef) : Decidable (EdgesClosed slots) := by
  unfold EdgesClosed; infer_instance

/-! ### Review rendering (`generateReviewMessage`) -/

/-- `formatValue` of `generateReviewMessage`: booleans render Yes/No, arrays
join with `", "`, anything else goes through `String(val)`. -/
def formatValue : JValue → String
  | .bool b => if b then "Yes" else "No"
  | .list xs => String.intercalate ", " xs
  | v => jsToString v

/-- Skip forward past the first `)`; fails at a newline or the end (the `.`
of `\(.*?\)` does not cross newlines). -/
def scanClose : List Char → Option (List Char)
  | [] => none
  | ')' :: rest => some rest
  | '\n' :: _ => none
  | _ :: rest => scanClose rest

/-- Fueled worker for the global non-greedy replacement `\(.*?\)` → empty:
every step consumes at least one character, so fuel = length suffices. -/
def stripParensF : Nat → List Char → List Char
  | 0, cs => cs
  | _ + 1, [] => []
  | fuel + 1, '(' :: rest =>
    match scanClose rest with
    | some rem => stripParensF fuel rem
    | none => '(' :: stripParensF fuel rest
  | fuel + 1, c :: rest => c :: stripParensF fuel rest

/-- `label.replace(/\(.*?\)/g, '')`. -/
def stripParens (s : String) : String := ⟨stripParensF s.data.length s.data⟩

/-- `label.charAt(0).toUpperCase() + label.slice(1)`. -/
def capitalizeFirst (s : String) : String :=
  match s.data with
  | [] => ""
  | c :: rest => ⟨c.toUpper :: rest⟩

/-- `makeLabel` of `generateReviewMessage`: the prompt (or the slot name when
the slot is unknown) with parentheticals removed, trimmed, a trailing `?`
dropped, and the first character upper-cased. -/
def makeLabel (question : Option String) (slotName : String) : String :=
  let base :=
    match question with
    | some q => if q = "" then slotName else q
    | none => slotName
  let label := jsTrim (stripParens base)
  let label2 := if endsWithQMark label then label.dropRight 1 else label
  capitalizeFirst label2

/-- The per-slot lines of the review message, one per `filledSlots` entry in
object order. -/
def reviewLines (filled : List (String × JValue)) : List String :=
  filled.map (fun p =>
    "- **" ++ makeLabel ((findSlot SLOT_SCHEMA p.1).map (fun s => s.question)) p.1
      ++ ":** " ++ formatValue p.2)

/-- `generateReviewMessage(filledSlots)` from `backend/dialog_manager.js`. -/
def generateReviewMessage (filled : List (String × JValue)) : String :=
  "### Please review your information\n\n" ++
    String.intercalate "\n" (reviewLines filled) ++
    "\n\nIf anything looks incorrect or needs to be updated, just tell me (for example, \\\"Change my birth year to 1987\\\" or \\\"I don\x27t have a partner\\\").\n\nWhen everything looks good, type **approved** to finalize."

/-- The value-rendering rule exactly as the spec words it (for the C8
refinement): boolean → Yes/No, list → comma-joined, anything else verbatim. -/
def specFormatValue : JValue → String
  | .bool b => if b then "Yes" else "No"
  | .list xs => String.intercalate ", " xs
  | .str s => s
  | .num n => toString n
  | .null => "null"

/-- One review line as the spec describes it: the humanized label followed by
the spec-rendered value. -/
def specLine (p : String × JValue) : String :=
  "- **" ++ makeLabel ((findSlot SLOT_SCHEMA p.1).map (fun s => s.question)) p.1
    ++ ":** " ++ specFormatValue p.2

/-! ### Correction engine (`applyCorrections`)

The LLM correction parser is a delegate; its parsed `{slotName, newValue}`
list (empty on delegate failure) is a parameter.  The regex fallback layers
are implemented as direct matchers for the exact patterns the source builds
from each slot id, with JS leftmost-match and greedy-with-backtracking
semantics; each assignment that changes the stored value (and each
unconditional `has_partner` keyword assignment) counts one logged correction
interaction. -/

/-- Case-insensitive literal: consume `lit` from the head of `t`,
returning the remainder. -/
def ciEat : List Char → List Char → Option (List Char)
  | [], t => some t
  | _ :: _, [] => none
  | p :: ps, c :: cs => if p.toLower = c.toLower then ciEat ps cs else none

/-- Consume the slot-name pattern (`slotName.replace(/_/g, '[ _]')`): each
`_` matches a space or underscore, other characters case-insensitively. -/
def slotPatEat : List Char → List Char → Option (List Char)
  | [], t => some t
  | _ :: _, [] => none
  | p :: ps, c :: cs =>
    if p = '_' then (if c = ' ' || c = '_' then slotPatEat ps cs else none)
    else if p.toLower = c.toLower then slotPatEat ps cs else none

/-- `\s*(.+)` / `\s+(.+)` with greedy backtracking: try dropping `j` leading
space characters, largest first, down to `lo`, and capture the longest
newline-free run that follows; the first non-empty capture wins. -/
def capDesc (lo : Nat) (t : List Char) : Nat → Option (List Char)
  | 0 =>
    if lo = 0 then
      (let cap := t.takeWhile (fun c => c ≠ '\n')
       if cap.isEmpty then none else some cap)
    else none
  | j + 1 =>
    if j + 1 < lo then none
    else
      let cap := (t.drop (j + 1)).takeWhile (fun c => c ≠ '\n')
      if cap.isEmpty then capDesc lo t j else some cap

/-- `\s*(.+)` (`minOne = false`) or `\s+(.+)` (`minOne = true`) applied at
the head of `t`. -/
def capAfterSpaces (minOne : Bool) (t : List Char) : Option (List Char) :=
  capDesc (if minOne then 1 else 0) t (t.takeWhile jsSpace).length

/-- After the slot-name pattern: `\s*[:=]` then `\s*(.+)`. -/
def strictAfterSlot (t : List Char) : Option (List Char) :=
  match t.dropWhile jsSpace with
  | ':' :: rest => capAfterSpaces false rest
  | '=' :: rest => capAfterSpaces false rest
  | _ => none

/-- Leftmost match of the strict `slotname: value` / `slotname = value`
pattern, returning the captured value text. -/
def strictScan (pat : List Char) : List Char → Option (List Char)
  | [] =>
    match slotPatEat pat [] with
    | some rest => strictAfterSlot rest
    | none => none
  | c :: cs =>
    match slotPatEat pat (c :: cs) with
    | some rest =>
      match strictAfterSlot rest with
      | some cap => some cap
      | none => strictScan pat cs
    | none => strictScan pat cs

/-- The capture of `new RegExp(slotPattern + "\\s*[:=]\\s*(.+)", "i")` on the
utterance, if any. -/
def strictCapture (slotName utterance : String) : Option String :=
  (strictScan slotName.data utterance.data).map (fun cs => String.mk cs)

/-- `.{0,n}` as a greedy gap: try `j` non-newline characters, largest first,
handing the remainder to the continuation. -/
def gapDesc (cont : List Char → Option (List Char)) (t : List Char) :
    Nat → Option (List Char)
  | 0 => cont t
  | j + 1 =>
    let attempt :=
      if j + 1 ≤ t.length && (t.take (j + 1)).all (fun c => c ≠ '\n') then
        cont (t.drop (j + 1))
      else none
    match attempt with
    | some cap => some cap
    | none => gapDesc cont t j

/-- `(?:to|is|=)\s+(.+)` at the head of `t` (alternatives in source order). -/
def nl1Lit (t : List Char) : Option (List Char) :=
  let viaTo :=
    match ciEat ['t', 'o'] t with
    | some r => capAfterSpaces true r
    | none => none
  match viaTo with
  | some cap => some cap
  | none =>
    let viaIs :=
      match ciEat ['i', 's'] t with
      | some r => capAfterSpaces true r
      | none => none
    match viaIs with
    | some cap => some cap
    | none =>
      match ciEat ['='] t with
      | some r => capAfterSpaces true r
      | none => none

/-- After a verb: `.{0,40}` then the slot words then `.{0,20}` then
`(?:to|is|=)\s+(.+)`. -/
def nl1After (words rest : List Char) : Option (List Char) :=
  gapDesc
    (fun t1 =>
      match ciEat words t1 with
      | none => none
      | some t2 => gapDesc nl1Lit t2 (min 20 t2.length))
    rest (min 40 rest.length)

/-- Try the four verbs of `(?:change|update|correct|set)` at the head of `t`. -/
def nl1Verbs (words t : List Char) : Option (List Char) :=
  match ciEat ("change".data) t with
  | some rest => nl1After words rest
  | none =>
    match ciEat ("update".data) t with
    | some rest => nl1After words rest
    | none =>
      match ciEat ("correct".data) t with
      | some rest => nl1After words rest
      | none =>
        match ciEat ("set".data) t with
        | some rest => nl1After words rest
        | none => none

/-- Leftmost match of
`(?:change|update|correct|set).{0,40}words.{0,20}(?:to|is|=)\s+(.+)`. -/
def nl1Scan (words : List Char) : List Char → Option (List Char)
  | [] => none
  | c :: cs =>
    match nl1Verbs words (c :: cs) with
    | some cap => some cap
    | none => nl1Scan words cs

/-- `(?:is|=)` then `\s+(.+)`, after `j` spaces, greedy on `j`. -/
def nl2Desc (t : List Char) : Nat → Option (List Char)
  | 0 => none
  | j + 1 =>
    let r := t.drop (j + 1)
    let viaIs :=
      match ciEat ['i', 's'] r with
      | some r2 => capAfterSpaces true r2
      | none => none
    match viaIs with
    | some cap => some cap
    | none =>
      let viaEq :=
        match ciEat ['='] r with
        | some r2 => capAfterSpaces true r2
        | none => none
      match viaEq with
      | some cap => some cap
      | none => nl2Desc t j

/-- Leftmost match of `words\s+(?:is|=)\s+(.+)`. -/
def nl2Scan (words : List Char) : List Char → Option (List Char)
  | [] => none
  | c :: cs =>
    match ciEat words (c :: cs) with
    | some rest =>
      match nl2Desc rest (rest.takeWhile jsSpace).length with
      | some cap => some cap
      | none => nl2Scan words cs
    | none => nl2Scan words cs

/-- The capture of the first matching natural-language pattern
(`regex1 || regex2` in the source) for one slot. -/
def nlCapture (slotName utterance : String) : Option String :=
  let words := (underscoresToSpaces slotName).data
  match nl1Scan words utterance.data with
  | some cap => some (String.mk cap)
  | none => (nl2Scan words utterance.data).map (fun cs => String.mk cs)

/-- `\b`-bounded, case-insensitive occurrence of `w` in `t` (`prev` is the
character before the scan position). -/
def boundScan (w : List Char) (prev : Option Char) : List Char → Bool
  | [] => false
  | c :: cs =>
    (match prev with
     | none => true
     | some p => !isWordChar p) &&
      (match ciEat w (c :: cs) with
       | some [] => true
       | some (r :: _) => !isWordChar r
       | none => false)
    || boundScan w (some c) cs

/-- `/\bi am single\b/i.test(lower)`. -/
def testSingle (lower : String) : Bool := boundScan ("i am single".data) none lower.data

/-- `/\bmarried\b|\bspouse\b|\bhusband\b|\bwife\b/.test(lower)`. -/
def testMarried (lower : String) : Bool :=
  boundScan ("married".data) none lower.data || boundScan ("spouse".data) none lower.data ||
    boundScan ("husband".data) none lower.data || boundScan ("wife".data) none lower.data

/-- Case-sensitive substring test (`/has_partner/.test(slotName)`). -/
def containsStr (needle : List Char) : List Char → Bool
  | [] => needle.isEmpty
  | c :: cs => needle.isPrefixOf (c :: cs) || containsStr needle cs

/-- Intermediate state of `applyCorrections`: the `updated` map and the
number of correction interactions saved so far. -/
structure CorrState where
  updated : List (String × JValue)
  logs : Nat
deriving DecidableEq, Repr

/-- `assignValue(slot, val)`: boolean-looking slots (current value boolean,
or `has_`/`is_` prefix) coerce the captured text through the yes/no prefix
lists; otherwise the trimmed text is stored. `filled` is the original
`filledSlots` argument (the source reads `filledSlots[slot]`, not
`updated[slot]`, for the boolean check). -/
def assignValue (filled : List (String × JValue)) (slot : String) (val : String)
    (st : List (String × JValue)) : List (String × JValue) :=
  let looksBoolean :=
    (match getKey filled slot with
     | some (.bool _) => true
     | _ => false) || startsWithChars "has_" slot || startsWithChars "is_" slot
  if looksBoolean then
    let v := jsLower val
    if ["yes", "true", "y", "have", "with", "married"].any (fun p => p.data.isPrefixOf v.data) then
      setKey st slot (.bool true)
    else if ["no", "false", "n", "single", "none", "without"].any
        (fun p => p.data.isPrefixOf v.data) then
      setKey st slot (.bool false)
    else setKey st slot (.str (jsTrim val))
  else setKey st slot (.str (jsTrim val))

/-- Step 1 of `applyCorrections`: apply each delegate correction whose slot
is known and whose value differs from the current one, logging each. -/
def delegateLoop : List (String × JValue) → CorrState → CorrState
  | [], st => st
  | (slotName, newValue) :: rest, st =>
    if (findSlot SLOT_SCHEMA slotName).isSome then
      if getKey st.updated slotName ≠ some newValue then
        delegateLoop rest ⟨setKey st.updated slotName newValue, st.logs + 1⟩
      else delegateLoop rest st
    else delegateLoop rest st

/-- Step 2a: the strict `slotname: value` / `slotname = value` pass over all
schema slots in declaration order. -/
def strictLoop (utterance : String) (filled : List (String × JValue)) :
    List String → CorrState → CorrState
  | [], st => st
  | slotName :: rest, st =>
    match strictCapture slotName utterance with
    | none => strictLoop utterance filled rest st
    | some cap =>
      let before := getKey st.updated slotName
      let updated2 := assignValue filled slotName cap st.updated
      let logs2 := if before ≠ getKey updated2 slotName then st.logs + 1 else st.logs
      strictLoop utterance filled rest ⟨updated2, logs2⟩

/-- Step 2b: the natural-language pass (`regex1 || regex2`), plus the
unconditional `i am single` / `married|spouse|husband|wife` keyword
assignments for slots whose name contains `has_partner`. -/
def nlLoop (utterance lower : String) (filled : List (String × JValue)) :
    List String → CorrState → CorrState
  | [], st => st
  | slotName :: rest, st =>
    let st1 :=
      match nlCapture slotName utterance with
      | none => st
      | some cap =>
        let before := getKey st.updated slotName
        let updated2 := assignValue filled slotName cap st.updated
        let logs2 := if before ≠ getKey updated2 slotName then st.logs + 1 else st.logs
        (⟨updated2, logs2⟩ : CorrState)
    let st2 :=
      if testSingle lower && containsStr ("has_partner".data) slotName.data then
        (⟨setKey st1.updated slotName (.bool false), st1.logs + 1⟩ : CorrState)
      else st1
    let st3 :=
      if testMarried lower && containsStr ("has_partner".data) slotName.data then
        (⟨setKey st2.updated slotName (.bool true), st2.logs + 1⟩ : CorrState)
      else st2
    nlLoop utterance lower filled rest st3

/-- `applyCorrections(userResponse, filledSlots)` from
`backend/dialog_manager.js`, with the LLM delegate's parsed corrections as a
parameter (empty when the delegate fails or returns nothing).  Returns the
updated map and the number of correction interactions logged. -/
def applyCorrections (delegate : List (String × JValue)) (userResponse : String)
    (filled : List (String × JValue)) : List (String × JValue) × Nat :=
  let lower := jsLower userResponse
  let st1 := delegateLoop delegate ⟨filled, 0⟩
  let st2 := strictLoop userResponse filled (slotIds SLOT_SCHEMA) st1
  let st3 := nlLoop userResponse lower filled (slotIds SLOT_SCHEMA) st2
  (st3.updated, st3.logs)

/-- "The utterance matches no slot pattern": for every schema slot, the
strict pattern, both natural-language patterns, and the `has_partner`
keyword tests all fail. -/
def matchesNoSlotPattern (utterance : String) : Bool :=
  (slotIds SLOT_SCHEMA).all (fun s =>
    (strictCapture s utterance).isNone && (nlCapture s utterance).isNone &&
      !(testSingle (jsLower utterance) && containsStr ("has_partner".data) s.data) &&
      !(testMarried (jsLower utterance) && containsStr ("has_partner".data) s.data))

/-! ### Turn controller (`processResponse`) -/

/-- Result shape of `getNextQuestion`: either the next slot's prompt or the
review hand-off (all questions answered). -/
structure NextQuestion where
  isReview : Bool := false
  isComplete : Bool := false
  slot : Option String := none
  message : Option String := none
deriving DecidableEq, Repr

/-- `getNextQuestion(filledSlots)` from `backend/dialog_manager.js`: walk the
schema; an unfilled slot yields its prompt, exhaustion yields the review
message.  The last case covers the traversal's exception paths, unreachable
for `SLOT_SCHEMA` (`schemaWalk_total`). -/
def getNextQuestion (filled : List (String × JValue)) : NextQuestion :=
  match getNextUnfilledSlot SLOT_SCHEMA filled with
  | some (.ok (some s)) =>
    { slot := some s, message := (findSlot SLOT_SCHEMA s).map (fun cfg => cfg.question) }
  | some (.ok none) =>
    { isReview := true, message := some (generateReviewMessage filled) }
  | _ => { message := none }

/-- The router delegate's classification. -/
inductive RouterAction where
  | extract
  | clarify
  | ask
deriving DecidableEq, Repr

/-- The structured result of `routeUserResponse` (already filtered to
high-confidence extractions by the router; on router failure it degrades to
`ask` with no extractions). -/
structure RouterResult where
  action : RouterAction
  extractions : List Extraction
deriving DecidableEq, Repr

/-- The object returned by `processResponse`; absent JS fields are `none` /
`false`. -/
structure ProcResult where
  success : Bool
  error : Option String := none
  shouldReprompt : Bool := false
  isClarification : Bool := false
  filledSlots : Option (List (String × JValue)) := none
  extractedSlots : Option (List Extraction) := none
  isHybridExtraction : Bool := false
  isReview : Bool := false
  isComplete : Bool := false
  slot : Option String := none
  message : Option String := none
deriving DecidableEq, Repr

/-- `processResponse(currentSlot, userResponse, filledSlots)` from
`backend/dialog_manager.js` in hybrid mode, with the delegate results as
parameters: `router` is the routing result, `clarText` the generated
clarification text, and `single` the legacy single-slot extraction result
(`none` for `null`).  An unknown `currentSlot` makes the source throw on
`slotConfig.question`, modelled as `none`. -/
def processResponse (router : RouterResult) (clarText : String) (single : Option JValue)
    (currentSlot userResponse : String) (filled : List (String × JValue)) :
    Option ProcResult :=
  match findSlot SLOT_SCHEMA currentSlot with
  | none => none
  | some _ =>
    some (match router.action with
      | .extract =>
        let multi := processMultipleExtractions router.extractions filled
        if multi.successfulExtractions.length > 0 then
          let nq := getNextQuestion multi.updatedSlots
          { success := true, filledSlots := some multi.updatedSlots,
            extractedSlots := some multi.successfulExtractions, isHybridExtraction := true,
            isReview := nq.isReview, isComplete := nq.isComplete,
            slot := nq.slot, message := nq.message }
        else
          { success := false, error := some clarText, shouldReprompt := true,
            isClarification := true }
      | .clarify =>
        { success := false, error := some clarText, shouldReprompt := true,
          isClarification := true }
      | .ask =>
        match single with
        | none =>
          { success := false, error := some clarText, shouldReprompt := true,
            isClarification := true }
        | some v =>
          if !(jsTruthy v) then
            { success := false, error := some clarText, shouldReprompt := true,
              isClarification := true }
          else
            let validation := validateSlotValue currentSlot v
            if !validation.isValid then
              { success := false, error := validation.error, shouldReprompt := true }
            else
              let updatedSlots := setKey filled currentSlot v
              let nq := getNextQuestion updatedSlots
              { success := true, filledSlots := some updatedSlots,
                isReview := nq.isReview, isComplete := nq.isComplete,
                slot := nq.slot, message := nq.message })

/-! ### Session phase machine

The host-facing dispatcher that tracks the `Collecting → Review → Complete`
phases and rejects turns after completion is not part of the backend sources
(the source `server.js` is an older revision that predates the review phase
and keeps the interview state in the caller), so it is modelled from the
spec, §3/§4.2/§7, on top of the embedded engine operations above. -/

/-- Modelled from the spec: the session phase (`SessionState.phase`, §3);
the phase-tracking host dispatcher is missing from the sources. -/
inductive Phase where
  | collecting
  | review
  | complete
deriving DecidableEq, Repr

/-- Modelled from the spec: the per-session mutable state (§3) — filled
slots, the current slot being asked, the phase, and the number of logged
interactions standing in for the append-only interaction log. -/
structure Session where
  phase : Phase
  currentSlot : String
  filledSlots : List (String × JValue)
  logCount : Nat
deriving DecidableEq, Repr

/-- Modelled from the spec: the tagged union returned by `submitTurn` (§6),
including the `AlreadyComplete` rejection signal (§4.2/§7). -/
inductive TurnResult where
  | alreadyComplete
  | completed (filledSlots : List (String × JValue))
  | review (renderedSummary : String)
  | turn (r : ProcResult)
  | crashed
deriving DecidableEq, Repr

/-- Modelled from the spec: `submitTurn` (§4.2), the missing phase
dispatcher.  Complete is terminal and rejects with `AlreadyComplete`; Review
forwards to the correction engine unless the utterance normalizes to the
approval token; Collecting delegates to the embedded `processResponse` and
advances phase/slot/slots from its result. -/
def submitTurn (router : RouterResult) (clarText : String) (single : Option JValue)
    (delegateCorr : List (String × JValue)) (sess : Session) (utterance : String) :
    TurnResult × Session :=
  match sess.phase with
  | .complete => (.alreadyComplete, sess)
  | .review =>
    if jsLower (jsTrim utterance) = "approved" then
      (.completed sess.filledSlots, { sess with phase := .complete })
    else
      let r := applyCorrections delegateCorr utterance sess.filledSlots
      (.review (generateReviewMessage r.1),
        { sess with filledSlots := r.1, logCount := sess.logCount + r.2 })
  | .collecting =>
    match processResponse router clarText single sess.currentSlot utterance sess.filledSlots with
    | none => (.crashed, sess)
    | some r =>
      if r.success then
        (.turn r,
          { sess with
            filledSlots := r.filledSlots.getD sess.filledSlots,
            phase := if r.isReview then .review else .collecting,
            currentSlot := r.slot.getD sess.currentSlot })
      else (.turn r, sess)

/-- A two-slot schema whose `next_default` edges form a cycle
(`a → b → a`), used to exercise the revisit detection. -/
def cyclicSchema : List SlotDef :=
  [ { id := "a", question := "qa", required := true, branches := [], next_default := some "b" },
    { id := "b", question := "qb", required := true, branches := [], next_default := some "a" } ]

/-! ## Theorems -/

theorem CONF_THRESHOLD_eq : CONF_THRESHOLD = 7/10 := by
  rw [CONF_THRESHOLD, Rat.mk'_eq_divInt, Rat.divInt_eq_div]; norm_num

theorem conf05_eq : conf05 = 1/2 := by
  rw [conf05, Rat.mk'_eq_divInt, Rat.divInt_eq_div]; norm_num

theorem conf09_eq : conf09 = 9/10 := by
  rw [conf09, Rat.mk'_eq_divInt, Rat.divInt_eq_div]; norm_num

theorem conf095_eq : conf095 = 19/20 := by
  rw [conf095, Rat.mk'_eq_divInt, Rat.divInt_eq_div]; norm_num

/-- C1: the claim "if two accepted extractions target the same slot, the one
with higher confidence wins and ties keep the first encountered; for
`[{first_name, "John", 0.9}, {first_name, "Jon", 0.95}]` the accepted result
contains exactly one first_name entry with value Jon" is false on the code:
at that very input the accepted result contains no `first_name` entry at all,
because `first_name` is not a slot of `SLOT_SCHEMA` and both candidates are
rejected by `validateSlotValue`. -/
theorem C1_counterexample :
    ((processMultipleExtractions
        [⟨"first_name", .str "John", conf09⟩, ⟨"first_name", .str "Jon", conf095⟩]
        []).successfulExtractions.filter
      (fun e => e.slotName = "first_name")).length ≠ 1 := by decide

/-- C1 (amended): one merge call performs no per-slot conflict resolution:
every candidate that passes validation and the threshold is appended to the
accepted list (so a slot may appear several times) and overwrites the slot in
the updated map, so the last accepted candidate wins regardless of
confidence; on the claimed input, `first_name` is not in the slot schema, so
both candidates are rejected with "Invalid slot name" and the accepted result
contains no `first_name` entry. -/
theorem C1_amended_merge :
    (processMultipleExtractions
        [⟨"first_name", .str "John", conf09⟩, ⟨"first_name", .str "Jon", conf095⟩] []
      = ⟨[], [],
          [⟨"first_name", .str "John", conf09, some "Invalid slot name"⟩,
           ⟨"first_name", .str "Jon", conf095, some "Invalid slot name"⟩]⟩) ∧
    (processMultipleExtractions
        [⟨"full_name", .str "John", conf09⟩, ⟨"full_name", .str "Jon", conf095⟩] []
      = ⟨[("full_name", .str "Jon")],
          [⟨"full_name", .str "John", conf09⟩, ⟨"full_name", .str "Jon", conf095⟩], []⟩) ∧
    (processMultipleExtractions
        [⟨"full_name", .str "Jon", conf095⟩, ⟨"full_name", .str "John", conf09⟩] []
      = ⟨[("full_name", .str "John")],
          [⟨"full_name", .str "Jon", conf095⟩, ⟨"full_name", .str "John", conf09⟩], []⟩) := by
  refine ⟨by decide, by decide, by decide⟩

/-- C4: branch traversal follows the first matching pattern against the
lowercased stringified value and falls back to `defaultNext`: with
`chief_complaint = "fertility issues"` the walk returns `months_ttc`
(Scenario A), and with `chief_complaint = "a cold"` it returns `none`
(Scenario B, terminal default). -/
theorem C4_branch_scenarios :
    getNextUnfilledSlot SLOT_SCHEMA
        [("full_name", .str "Jane Doe"), ("dob", .str "1990-01-01"),
         ("has_partner", .bool true), ("chief_complaint", .str "fertility issues")]
      = some (.ok (some "months_ttc")) ∧
    getNextUnfilledSlot SLOT_SCHEMA
        [("full_name", .str "Jane Doe"), ("dob", .str "1990-01-01"),
         ("has_partner", .bool true), ("chief_complaint", .str "a cold")]
      = some (.ok none) := by
  refine ⟨by decide, by decide⟩

/-- C6: the claim "the pattern fallback on `change my birth year to 1987`
against `dob = 01/01/1989` sets dob to a value containing 1987 and logs
exactly one correction interaction" is false on the code: the fallback
patterns are built from the slot id (`dob`), which does not occur in the
utterance, so `applyCorrections` leaves the map unchanged and logs zero
interactions. -/
theorem C6_counterexample :
    applyCorrections [] "change my birth year to 1987" [("dob", .str "01/01/1989")]
        = ([("dob", .str "01/01/1989")], 0) ∧
      (applyCorrections [] "change my birth year to 1987"
          [("dob", .str "01/01/1989")]).2 ≠ 1 := by
  refine ⟨by decide, by decide⟩

/-- C6 (amended): the pattern fallback only reacts to utterances containing
the slot's own id words, so `change my birth year to 1987` leaves `dob`
unchanged with no logged correction, while an utterance naming the slot,
`change my dob to 1987`, sets `dob` to `"1987"` (which contains "1987") and
logs exactly one correction interaction. -/
theorem C6_amended_pattern_fallback :
    (applyCorrections [] "change my birth year to 1987" [("dob", .str "01/01/1989")]
      = ([("dob", .str "01/01/1989")], 0)) ∧
    (applyCorrections [] "change my dob to 1987" [("dob", .str "01/01/1989")]
      = ([("dob", .str "1987")], 1)) ∧
    containsStr ("1987".data) (jsToString (JValue.str "1987")).data = true := by
  refine ⟨by decide, by decide, by decide⟩

theorem findSlot_mem {slots : List SlotDef} {name : String} {cfg : SlotDef}
    (h : findSlot slots name = some cfg) : cfg ∈ slots ∧ cfg.id = name := by
  rw [findSlot] at h
  have hp := List.find?_some h
  simp only [decide_eq_true_eq] at hp
  exact ⟨List.mem_of_find?_eq_some h, hp⟩

theorem findSlot_of_mem {slots : List SlotDef} {name : String}
    (h : name ∈ slotIds slots) : ∃ cfg, findSlot slots name = some cfg := by
  rcases List.mem_map.mp h with ⟨s, hs, hid⟩
  have hsome : (findSlot slots name).isSome := by
    rw [findSlot, List.find?_isSome]
    exact ⟨s, hs, by simp [hid]⟩
  exact Option.isSome_iff_exists.mp hsome

/-- C3: the merge engine never accepts an extraction with confidence below
0.7 (`CONF_THRESHOLD = 7/10`): every accepted extraction satisfies the
threshold, and every candidate below it is placed in the rejected output
(with the validation error, `none` when only the confidence failed). -/
theorem C3_confidence_threshold :
    CONF_THRESHOLD = 7/10 ∧
    (∀ (exts : List Extraction) (filled : List (String × JValue)) (e : Extraction),
      e ∈ (processMultipleExtractions exts filled).successfulExtractions →
      e.confidence ≥ CONF_THRESHOLD) ∧
    (∀ (exts : List Extraction) (filled : List (String × JValue)) (e : Extraction),
      e ∈ exts → e.confidence < CONF_THRESHOLD →
      (⟨e.slotName, e.value, e.confidence, (validateSlotValue e.slotName e.value).error⟩ :
        FailedExtraction) ∈ (processMultipleExtractions exts filled).failedExtractions) := by
  refine ⟨CONF_THRESHOLD_eq, ?_, ?_⟩
  · intro exts
    induction exts with
    | nil => intro filled e h; simp [processMultipleExtractions] at h
    | cons a rest ih =>
      intro filled e h
      simp only [processMultipleExtractions] at h
      split at h
      · next hc =>
        rcases List.mem_cons.mp h with he | he
        · subst he
          exact of_decide_eq_true (Bool.and_elim_right hc)
        · exact ih _ e he
      · exact ih _ e h
  · intro exts
    induction exts with
    | nil => intro filled e h; simp at h
    | cons a rest ih =>
      intro filled e he hconf
      rcases List.mem_cons.mp he with he | he
      · subst he
        simp only [processMultipleExtractions]
        split
        · next hc =>
          exact absurd (of_decide_eq_true (Bool.and_elim_right hc)) (not_le.mpr hconf)
        · exact List.mem_cons_self _ _
      · simp only [processMultipleExtractions]
        split
        · exact ih _ e he hconf
        · exact List.mem_cons_of_mem _ (ih _ e he hconf)

theorem C3_confidence_threshold_witness :
    (⟨"dob", .str "june", conf05⟩ : Extraction) ∈
        [(⟨"full_name", .str "Ann Roe", conf09⟩ : Extraction), ⟨"dob", .str "june", conf05⟩] ∧
      conf05 < CONF_THRESHOLD ∧
      (⟨"dob", .str "june", conf05,
          (validateSlotValue "dob" (.str "june")).error⟩ : FailedExtraction) ∈
        (processMultipleExtractions
          [⟨"full_name", .str "Ann Roe", conf09⟩, ⟨"dob", .str "june", conf05⟩]
          []).failedExtractions :=
  ⟨by decide, by decide,
    C3_confidence_threshold.2.2
      [⟨"full_name", .str "Ann Roe", conf09⟩, ⟨"dob", .str "june", conf05⟩] []
      ⟨"dob", .str "june", conf05⟩ (by decide) (by decide)⟩

/-- C10: for every slot id that is not a key of the slot schema and every
value, `validateSlotValue` returns invalid with reason "Invalid slot name",
and consequently an extraction whose slot is unknown can never appear in the
merge engine's accepted output. -/
theorem C10_unknown_slot_never_accepted :
    (∀ (name : String) (v : JValue), findSlot SLOT_SCHEMA name = none →
      validateSlotValue name v = ⟨false, some "Invalid slot name"⟩) ∧
    (∀ (exts : List Extraction) (filled : List (String × JValue)) (e : Extraction),
      e ∈ (processMultipleExtractions exts filled).successfulExtractions →
      (findSlot SLOT_SCHEMA e.slotName).isSome = true) := by
  constructor
  · intro name v h
    unfold validateSlotValue
    rw [h]
  · intro exts
    induction exts with
    | nil => intro filled e h; simp [processMultipleExtractions] at h
    | cons a rest ih =>
      intro filled e h
      simp only [processMultipleExtractions] at h
      split at h
      · next hc =>
        rcases List.mem_cons.mp h with he | he
        · subst he
          have hv := Bool.and_elim_left hc
          unfold validateSlotValue at hv
          cases hfind : findSlot SLOT_SCHEMA e.slotName with
          | none => rw [hfind] at hv; simp at hv
          | some cfg => rfl
        · exact ih _ e he
      · exact ih _ e h

theorem C10_unknown_slot_never_accepted_witness :
    findSlot SLOT_SCHEMA "first_name" = none ∧
      validateSlotValue "first_name" (.bool true) = ⟨false, some "Invalid slot name"⟩ :=
  ⟨by decide, C10_unknown_slot_never_accepted.1 "first_name" (.bool true) (by decide)⟩

theorem pm_updated_of_no_success :
    ∀ (exts : List Extraction) (filled : List (String × JValue)),
      (processMultipleExtractions exts filled).successfulExtractions = [] →
      (processMultipleExtractions exts filled).updatedSlots = filled := by
  intro exts
  induction exts with
  | nil => intro filled _; rfl
  | cons a rest ih =>
    intro filled h
    simp only [processMultipleExtractions] at h ⊢
    split at h
    · simp at h
    · next hc =>
      rw [if_neg hc]
      exact ih _ h

/-- C7: in the Collecting state's extract path, when the merge engine accepts
zero candidates, `processResponse` returns the clarification/reprompt object
(no slot, no filled-slots update) and the merge leaves the slot map
untouched, so the caller keeps phase, current slot and `filledSlots`
unchanged. -/
theorem C7_zero_accepted_keeps_state :
    ∀ (exts : List Extraction) (clarText : String) (single : Option JValue)
      (currentSlot userResponse : String) (filled : List (String × JValue)),
      currentSlot ∈ slotIds SLOT_SCHEMA →
      (processMultipleExtractions exts filled).successfulExtractions = [] →
      processResponse ⟨.extract, exts⟩ clarText single currentSlot userResponse filled
          = some { success := false, error := some clarText, shouldReprompt := true,
                   isClarification := true } ∧
        (processMultipleExtractions exts filled).updatedSlots = filled := by
  intro exts clarText single currentSlot userResponse filled hmem hnone
  rcases findSlot_of_mem hmem with ⟨cfg, hcfg⟩
  constructor
  · simp only [processResponse, hcfg, hnone]
    rfl
  · exact pm_updated_of_no_success exts filled hnone

theorem C7_zero_accepted_keeps_state_witness :
    processResponse ⟨.extract, [⟨"full_name", .str "Bob", conf05⟩]⟩ "Could you clarify?"
          none "full_name" "idk" []
        = some { success := false, error := some "Could you clarify?",
                 shouldReprompt := true, isClarification := true } ∧
      (processMultipleExtractions [⟨"full_name", .str "Bob", conf05⟩] []).updatedSlots = [] :=
  C7_zero_accepted_keeps_state [⟨"full_name", .str "Bob", conf05⟩] "Could you clarify?"
    none "full_name" "idk" [] (by decide) (by decide)

theorem formatValue_eq_spec : ∀ v : JValue, formatValue v = specFormatValue v := by
  intro v; cases v <;> rfl

theorem reviewLines_eq_map_specLine :
    ∀ u : List (String × JValue), reviewLines u = u.map specLine := by
  intro u
  induction u with
  | nil => rfl
  | cons p t ih =>
    simp only [reviewLines, List.map] at ih ⊢
    rw [ih, specLine, formatValue_eq_spec]

/-- C8: round-trip through the review rendering: the review message carries
exactly one line per entry of any `filledSlots` map produced by the merge
engine, and that line renders the stored value by the spec's rule (boolean →
Yes/No, list → comma-joined, else verbatim) after a label derived from the
slot's prompt with parentheticals and the trailing `?` stripped. -/
theorem C8_review_round_trip :
    (∀ v : JValue, formatValue v = specFormatValue v) ∧
    (∀ (exts : List Extraction) (filled : List (String × JValue)),
      reviewLines (processMultipleExtractions exts filled).updatedSlots
        = ((processMultipleExtractions exts filled).updatedSlots).map specLine) ∧
    makeLabel (some "Do you have a partner who will be part of treatment? (yes/no)")
        "has_partner" = "Do you have a partner who will be part of treatment" ∧
    reviewLines
        [("has_partner", .bool true), ("chief_complaint", .str "fertility issues"),
         ("months_ttc", .list ["a", "b"])]
      = ["- **Do you have a partner who will be part of treatment:** Yes",
         "- **What brings you in today:** fertility issues",
         "- **How many months have you been trying to get pregnant:** a, b"] := by
  refine ⟨formatValue_eq_spec, ?_, by decide, by decide⟩
  intro exts filled
  exact reviewLines_eq_map_specLine _

theorem delegateLoop_no_applicable :
    ∀ (delegate : List (String × JValue)) (st : CorrState),
      (∀ p ∈ delegate, findSlot SLOT_SCHEMA p.1 = none ∨ getKey st.updated p.1 = some p.2) →
      delegateLoop delegate st = st := by
  intro delegate
  induction delegate with
  | nil => intro st _; rfl
  | cons p rest ih =>
    intro st h
    obtain ⟨a, b⟩ := p
    have hrest : ∀ q ∈ rest, findSlot SLOT_SCHEMA q.1 = none ∨ getKey st.updated q.1 = some q.2 :=
      fun q hq => h q (List.mem_cons_of_mem _ hq)
    cases hfind : findSlot SLOT_SCHEMA a with
    | none =>
      simp only [delegateLoop, hfind, Option.isSome_none, Bool.false_eq_true, if_false]
      exact ih st hrest
    | some cfg =>
      have hv : getKey st.updated a = some b := by
        rcases h (a, b) (List.mem_cons_self _ _) with hn | hv
        · rw [hfind] at hn; cases hn
        · exact hv
      simp only [delegateLoop, hfind, Option.isSome_some, if_true]
      rw [if_neg (by simp [hv])]
      exact ih st hrest

theorem strictLoop_no_match :
    ∀ (names : List String) (utterance : String) (filled : List (String × JValue))
      (st : CorrState),
      (∀ s ∈ names, strictCapture s utterance = none) →
      strictLoop utterance filled names st = st := by
  intro names
  induction names with
  | nil => intro _ _ _ _; rfl
  | cons s rest ih =>
    intro utterance filled st h
    simp only [strictLoop, h s (List.mem_cons_self _ _)]
    exact ih _ _ _ (fun q hq => h q (List.mem_cons_of_mem _ hq))

theorem nlLoop_no_match :
    ∀ (names : List String) (utterance lower : String) (filled : List (String × JValue))
      (st : CorrState),
      (∀ s ∈ names, nlCapture s utterance = none ∧
        (testSingle lower && containsStr ("has_partner".data) s.data) = false ∧
        (testMarried lower && containsStr ("has_partner".data) s.data) = false) →
      nlLoop utterance lower filled names st = st := by
  intro names
  induction names with
  | nil => intro _ _ _ _ _; rfl
  | cons s rest ih =>
    intro utterance lower filled st h
    rcases h s (List.mem_cons_self _ _) with ⟨h1, h2, h3⟩
    simp only [nlLoop, h1, h2, h3, Bool.false_eq_true, if_false]
    exact ih _ _ _ _ (fun q hq => h q (List.mem_cons_of_mem _ hq))

/-- C9: for every `filledSlots` map and every utterance that matches none of
the slot-derived correction patterns, when the semantic-correction delegate
yields no applicable corrections (unknown slots or unchanged values), the
correction engine returns the slot map unchanged and logs nothing. -/
theorem C9_correction_idempotent :
    ∀ (delegate : List (String × JValue)) (utterance : String)
      (filled : List (String × JValue)),
      (∀ p ∈ delegate, findSlot SLOT_SCHEMA p.1 = none ∨ getKey filled p.1 = some p.2) →
      matchesNoSlotPattern utterance = true →
      applyCorrections delegate utterance filled = (filled, 0) := by
  intro delegate utterance filled hdel hpat
  rw [matchesNoSlotPattern, List.all_eq_true] at hpat
  rw [applyCorrections]
  rw [delegateLoop_no_applicable delegate ⟨filled, 0⟩ hdel]
  rw [strictLoop_no_match _ _ _ _ (fun s hs => by
    have := hpat s hs
    simp only [Bool.and_eq_true, Option.isNone_iff_eq_none] at this
    exact this.1.1.1)]
  rw [nlLoop_no_match _ _ _ _ _ (fun s hs => by
    have := hpat s hs
    simp only [Bool.and_eq_true, Option.isNone_iff_eq_none, Bool.not_eq_true'] at this
    exact ⟨this.1.1.2, this.1.2, this.2⟩)]

theorem C9_correction_idempotent_witness :
    matchesNoSlotPattern "thanks, that all looks right" = true ∧
      applyCorrections [] "thanks, that all looks right"
          [("dob", .str "1990-01-01"), ("has_partner", .bool true)]
        = ([("dob", .str "1990-01-01"), ("has_partner", .bool true)], 0) :=
  ⟨by decide,
    C9_correction_idempotent [] "thanks, that all looks right"
      [("dob", .str "1990-01-01"), ("has_partner", .bool true)]
      (by intro p hp; simp at hp) (by decide)⟩

/-- C5: the Complete state is terminal: for every utterance and every
delegate outcome, submitting a turn while the session phase is Complete is
rejected with the `AlreadyComplete` signal and the session — in particular
`filledSlots` — is left unchanged. -/
theorem C5_complete_terminal :
    ∀ (router : RouterResult) (clarText : String) (single : Option JValue)
      (delegateCorr : List (String × JValue)) (sess : Session) (utterance : String),
      sess.phase = .complete →
      submitTurn router clarText single delegateCorr sess utterance
        = (.alreadyComplete, sess) := by
  intro router clarText single delegateCorr sess utterance h
  simp only [submitTurn, h]

theorem C5_complete_terminal_witness :
    submitTurn ⟨.ask, []⟩ "clar" none []
        ⟨.complete, "full_name", [("dob", .str "1990-01-01")], 4⟩ "hello again"
      = (.alreadyComplete, ⟨.complete, "full_name", [("dob", .str "1990-01-01")], 4⟩) :=
  C5_complete_terminal ⟨.ask, []⟩ "clar" none []
    ⟨.complete, "full_name", [("dob", .str "1990-01-01")], 4⟩ "hello again" rfl

theorem walkF_total (slots : List SlotDef) (filled : List (String × JValue)) :
    ∀ (fuel : Nat) (current : String) (visited : List String),
      ((slotIds slots).toFinset \ visited.toFinset).card < fuel →
      ∃ r, walkF slots filled fuel current visited = some r := by
  intro fuel
  induction fuel with
  | zero => intro current visited h; exact absurd h (Nat.not_lt_zero _)
  | succ fuel ih =>
    intro current visited h
    by_cases hv : current ∈ visited
    · exact ⟨.ok none, by simp [walkF, hv]⟩
    · cases hk : getKey filled current with
      | none => exact ⟨.ok (some current), by simp [walkF, hv, hk]⟩
      | some v =>
        cases hf : findSlot slots current with
        | none =>
          exact ⟨.error "TypeError: slot configuration is undefined",
            by simp [walkF, hv, hk, hf]⟩
        | some cfg =>
          cases hn : nextSlotOf cfg (jsLower (jsStringOrEmpty v)) with
          | none => exact ⟨.ok none, by simp [walkF, hv, hk, hf, hn]⟩
          | some n =>
            by_cases hne : n = ""
            · exact ⟨.ok none, by simp [walkF, hv, hk, hf, hn, hne]⟩
            · have hcard : ((slotIds slots).toFinset \ (current :: visited).toFinset).card
                  < fuel := by
                have hmem : current ∈ slotIds slots := by
                  obtain ⟨hc1, hc2⟩ := findSlot_mem hf
                  exact List.mem_map.mpr ⟨cfg, hc1, hc2⟩
                have hsd : (slotIds slots).toFinset \ (current :: visited).toFinset
                    = ((slotIds slots).toFinset \ visited.toFinset).erase current := by
                  ext x
                  simp only [List.toFinset_cons, Finset.mem_sdiff, Finset.mem_insert,
                    Finset.mem_erase, List.mem_toFinset]
                  tauto
                rw [hsd]
                have hmemsd : current ∈ (slotIds slots).toFinset \ visited.toFinset := by
                  simp only [Finset.mem_sdiff, List.mem_toFinset]
                  exact ⟨hmem, hv⟩
                exact lt_of_lt_of_le (Finset.card_erase_lt_of_mem hmemsd)
                  (Nat.lt_succ_iff.mp h)
              obtain ⟨r, hr⟩ := ih n (current :: visited) hcard
              refine ⟨r, ?_⟩
              simp only [walkF]
              simp [hv, hk, hf, hn, hne]
              exact hr

theorem nextSlotOf_closed {slots : List SlotDef} {cfg : SlotDef} {value n : String}
    (hE : EdgesClosed slots) (hcfg : cfg ∈ slots)
    (h : nextSlotOf cfg value = some n) : n ∈ slotIds slots := by
  simp only [nextSlotOf] at h
  have hdflt : ∀ m : String,
      (match cfg.next_default with
        | some d => if d = "" then none else some d
        | none => none) = some m → m ∈ slotIds slots := by
    intro m hm
    cases hd : cfg.next_default with
    | none => simp [hd] at hm
    | some d =>
      by_cases hde : d = ""
      · simp [hd, hde] at hm
      · simp [hd, hde] at hm
        subst hm
        exact (hE cfg hcfg).2 _ hd
  by_cases hval : value = ""
  · rw [if_pos hval] at h
    exact hdflt n h
  · rw [if_neg hval] at h
    cases hb : findBranch cfg.branches value with
    | none =>
      rw [hb] at h
      exact hdflt n h
    | some t =>
      rw [hb] at h
      cases h
      rw [findBranch] at hb
      rcases Option.map_eq_some'.mp hb with ⟨pt, hfind, hpt⟩
      have hptmem := List.mem_of_find?_eq_some hfind
      rw [← hpt]
      exact (hE cfg hcfg).1 pt hptmem

theorem walkF_closed (slots : List SlotDef) (filled : List (String × JValue))
    (hE : EdgesClosed slots) :
    ∀ (fuel : Nat) (current : String) (visited : List String)
      (r : Except String (Option String)),
      current ∈ slotIds slots →
      walkF slots filled fuel current visited = some r →
      ∃ o, r = .ok o ∧ ∀ s, o = some s → s ∈ slotIds slots := by
  intro fuel
  induction fuel with
  | zero => intro current visited r _ h; simp [walkF] at h
  | succ fuel ih =>
    intro current visited r hmem h
    by_cases hv : current ∈ visited
    · simp [walkF, hv] at h
      exact ⟨none, h.symm, by intro s hs; cases hs⟩
    · cases hk : getKey filled current with
      | none =>
        simp [walkF, hv, hk] at h
        exact ⟨some current, h.symm, by intro s hs; cases hs; exact hmem⟩
      | some v =>
        cases hf : findSlot slots current with
        | none =>
          obtain ⟨cfg, hcfg⟩ := findSlot_of_mem hmem
          rw [hcfg] at hf
          cases hf
        | some cfg =>
          cases hn : nextSlotOf cfg (jsLower (jsStringOrEmpty v)) with
          | none =>
            simp [walkF, hv, hk, hf, hn] at h
            exact ⟨none, h.symm, by intro s hs; cases hs⟩
          | some n =>
            by_cases hne : n = ""
            · simp [walkF, hv, hk, hf, hn, hne] at h
              exact ⟨none, h.symm, by intro s hs; cases hs⟩
            · simp only [walkF] at h
              simp [hv, hk, hf, hn, hne] at h
              have hnmem : n ∈ slotIds slots :=
                nextSlotOf_closed hE (findSlot_mem hf).1 hn
              exact ih n (current :: visited) r hnmem h

/-- C2: for every `filledSlots` map and every slot graph — cyclic ones
included — `getNextUnfilledSlot` terminates within the fuel bound given by
the visited-set argument (the walk never runs out of fuel, so revisiting a
slot is detected and yields `none`); for every edge-closed graph the call
cannot throw and returns either a slot present in the graph or `none`; and on
a concrete cyclic two-slot graph the revisit detection returns `none`. -/
theorem C2_traversal :
    (∀ (slots : List SlotDef) (filled : List (String × JValue)),
      ∃ r, getNextUnfilledSlot slots filled = some r) ∧
    (∀ (slots : List SlotDef) (filled : List (String × JValue)),
      EdgesClosed slots →
      ∃ o, getNextUnfilledSlot slots filled = some (.ok o) ∧
        ∀ s, o = some s → s ∈ slotIds slots) ∧
    getNextUnfilledSlot cyclicSchema [("a", .str "x"), ("b", .str "y")] = some (.ok none) := by
  have hbound : ∀ (s0 : SlotDef) (rest : List SlotDef),
      ((slotIds (s0 :: rest)).toFinset \ (([] : List String)).toFinset).card
        < (s0 :: rest).length + 1 := by
    intro s0 rest
    have h1 : ((slotIds (s0 :: rest)).toFinset).card ≤ (slotIds (s0 :: rest)).length :=
      List.toFinset_card_le _
    have h2 : (slotIds (s0 :: rest)).length = (s0 :: rest).length := List.length_map _ _
    simp only [List.toFinset_nil, Finset.sdiff_empty]
    omega
  refine ⟨?_, ?_, by decide⟩
  · intro slots filled
    cases slots with
    | nil => exact ⟨_, rfl⟩
    | cons s0 rest =>
      by_cases he : s0.id = ""
      · exact ⟨.ok none, by simp [getNextUnfilledSlot, he]⟩
      · obtain ⟨r, hr⟩ := walkF_total (s0 :: rest) filled ((s0 :: rest).length + 1)
          s0.id [] (hbound s0 rest)
        exact ⟨r, by simp [getNextUnfilledSlot, he]; exact hr⟩
  · intro slots filled hE
    cases slots with
    | nil => exact ⟨none, rfl, by intro s hs; cases hs⟩
    | cons s0 rest =>
      by_cases he : s0.id = ""
      · exact ⟨none, by simp [getNextUnfilledSlot, he], by intro s hs; cases hs⟩
      · obtain ⟨r, hr⟩ := walkF_total (s0 :: rest) filled ((s0 :: rest).length + 1)
          s0.id [] (hbound s0 rest)
        have hroot : s0.id ∈ slotIds (s0 :: rest) := by simp [slotIds]
        obtain ⟨o, ho, hids⟩ := walkF_closed (s0 :: rest) filled hE _ s0.id [] r hroot hr
        subst ho
        refine ⟨o, ?_, hids⟩
        simp [getNextUnfilledSlot, he]
        exact hr

theorem C2_traversal_witness :
    ∃ o, getNextUnfilledSlot SLOT_SCHEMA [] = some (.ok o) ∧
      ∀ s, o = some s → s ∈ slotIds SLOT_SCHEMA :=
  C2_traversal.2.1 SLOT_SCHEMA [] (by decide)
